import Mathlib

set_option maxHeartbeats 1000000

/-! # Verification of the daoyou-pages client script

Shallow embedding of `src/assets/js/main.js`: the i18n subsystem
(`loadLanguage`, `t`, `getNestedValue`, `setLanguage`, `init`) and the
particle system (`Particle` constructor and `update`, `addParticle`,
`initCanvas` particle creation, `drawConnections`).

JavaScript numbers are modelled as rationals (reals where `Math.sqrt`
is involved), parsed JSON values as an inductive type, `fetch` and
`localStorage` and `Math.random` as explicit oracles passed in as
arguments, and the observable effects (network requests, DOM updates,
the dispatched event) as fields of explicit result records. -/

/-- A parsed JSON value as it appears in a translation file: a string
leaf or an object with string keys. -/
inductive Json : Type
  | str : String → Json
  | obj : List (String × Json) → Json

/-- A merged language bundle, the value stored in `translations[lang]`:
section name (`common`, `home`, ...) to parsed JSON. -/
abbrev Bundle := List (String × Json)

/-- JavaScript truthiness of a JSON value (used by the `data.common &&`
guard in `t`): objects are always truthy, a string is truthy iff
nonempty. -/
def Json.truthy : Json → Bool
  | Json.str s => s ≠ ""
  | Json.obj _ => true

/-- The loop of `getNestedValue(obj, keys)`: step into the next key while
the current value is an object containing it, otherwise return
`undefined` (`none`); with all keys consumed, return the current value. -/
def getNestedWalk : Json → List String → Option Json
  | v, [] => some v
  | Json.obj fields, k :: ks =>
      match fields.lookup k with
      | some v => getNestedWalk v ks
      | none => none
  | Json.str _, _ :: _ => none

/-- `getNestedValue(obj, keys)` from main.js, including its initial guard
(return undefined unless obj is a truthy object): the object may
be absent (`data[page]` missing) or not an object. -/
def getNestedValue : Option Json → List String → Option Json
  | none, _ => none
  | some (Json.str _), _ => none
  | some (Json.obj fields), keys => getNestedWalk (Json.obj fields) keys

/-- Accumulator loop for `jsSplitDot`: collect the current segment until
a dot, emit it, and continue. -/
def splitDotAux : List Char → List Char → List String
  | [], acc => [String.mk acc.reverse]
  | c :: cs, acc =>
      if c = '.' then String.mk acc.reverse :: splitDotAux cs []
      else splitDotAux cs (c :: acc)

/-- The JavaScript builtin split on a dot, as used by `t`: split into
dot-separated segments, keeping empty segments. -/
def jsSplitDot (s : String) : List String := splitDotAux s.toList []

/-- Boolean list prefix test for `jsStartsWith`. -/
def listPrefixB : List Char → List Char → Bool
  | _, [] => true
  | [], _ :: _ => false
  | c :: cs, d :: ds => c = d && listPrefixB cs ds

/-- The JavaScript builtin `s.startsWith(p)` as used by `init`. -/
def jsStartsWith (s p : String) : Bool := listPrefixB s.toList p.toList

/-- `t(key, page)`: split the key on dots, resolve against the page
section of the current language bundle, fall back to the `common`
section, and finally to the key itself (returned as a string leaf). -/
def t (translations : List (String × Bundle)) (currentLang : String)
    (key : String) (page : String) : Json :=
  match translations.lookup currentLang with
  | none => Json.str key
  | some data =>
      let keys := jsSplitDot key
      let v1 := getNestedValue (data.lookup page) keys
      let v2 :=
        match v1 with
        | some v => some v
        | none =>
            match data.lookup "common" with
            | some c => if c.truthy then getNestedValue (some c) keys else none
            | none => none
      match v2 with
      | some v => v
      | none => Json.str key

/-- The mutable state of the i18n module: `currentLang`, the
`translations` cache, and the `daoyou-lang` entry of `localStorage`. -/
structure I18nState where
  currentLang : String
  translations : List (String × Bundle)
  persisted : Option String

/-- The seven resource names fetched per language, in request order. -/
def sectionNames : List String :=
  ["common", "home", "features", "aigc", "community", "pricing", "about"]

/-- Fetch oracle: language and resource name to parsed JSON, `none`
meaning that fetch fails (network error or invalid JSON). -/
abbrev Fetch := String → String → Option Json

/-- The `Promise.all` of the seven fetches: succeeds with the merged
bundle iff every single fetch succeeds. -/
def fetchAll (fetch : Fetch) (lang : String) : Option Bundle :=
  sectionNames.mapM (fun n => (fetch lang n).map (fun j => (n, j)))

/-- Result of one `loadLanguage` call: the bundle the promise resolves
with, the state afterwards, and the network requests performed. -/
structure LoadResult where
  bundle : Bundle
  state : I18nState
  requests : List (String × String)

/-- `loadLanguage(lang)`: early-return the cached bundle if present;
otherwise fire the seven fetches; on success cache and resolve the
merged bundle; on failure resolve `translations[currentLang] || {}`,
with `currentLang` read at failure time. The promise never rejects. -/
def loadLanguage (fetch : Fetch) (lang : String) (s : I18nState) : LoadResult :=
  match s.translations.lookup lang with
  | some b => ⟨b, s, []⟩
  | none =>
      match fetchAll fetch lang with
      | some b =>
          ⟨b, { s with translations := (lang, b) :: s.translations },
            sectionNames.map (fun n => (lang, n))⟩
      | none =>
          ⟨(s.translations.lookup s.currentLang).getD [], s,
            sectionNames.map (fun n => (lang, n))⟩

/-- Result of one `setLanguage` call: the state afterwards, the network
requests performed, what the inner `loadLanguage` resolved with (`none`
when no load happened), and whether the DOM was re-translated and the
`languageChanged` event fired. -/
structure SetResult where
  state : I18nState
  requests : List (String × String)
  loaded : Option Bundle
  domUpdated : Bool
  eventFired : Bool

/-- `setLanguage(lang)`: no-op when `lang` is already current; otherwise
set `currentLang`, persist the code, load the bundle, then update the
page translations and dispatch `languageChanged`. -/
def setLanguage (fetch : Fetch) (lang : String) (s : I18nState) : SetResult :=
  if lang = s.currentLang then ⟨s, [], none, false, false⟩
  else
    let s1 : I18nState := { s with currentLang := lang, persisted := some lang }
    let r := loadLanguage fetch lang s1
    ⟨r.state, r.requests, some r.bundle, true, true⟩

/-- JavaScript `a || b` where `a` is a nullable string (the result of
`localStorage.getItem`): `null` and the empty string are falsy. -/
def jsOrString : Option String → String → String
  | none, d => d
  | some s, d => if s = "" then d else s

/-- The language chosen by `init()`:
the saved code if truthy, else "zh" when the browser language starts
with "zh" and "en" otherwise. -/
def initLang (saved : Option String) (navLang : String) : String :=
  jsOrString saved (if jsStartsWith navLang "zh" then "zh" else "en")

/-- `init()`: pick the language (persisted preference over browser
detection), then load its bundle starting from a fresh module state. -/
def init (fetch : Fetch) (saved : Option String) (navLang : String) : I18nState :=
  (loadLanguage fetch (initLang saved navLang)
    ⟨initLang saved navLang, [], saved⟩).state

/-- An i18n operation a caller may perform after some state is reached. -/
inductive Op : Type
  | load : String → Op
  | set : String → Op

/-- Run one operation for its state effect. -/
def runOp (fetch : Fetch) (s : I18nState) : Op → I18nState
  | Op.load l => (loadLanguage fetch l s).state
  | Op.set l => (setLanguage fetch l s).state

/-! ## Particle system -/

/-- The `config` object of the particle module. -/
structure PConfig where
  count : ℕ
  size : ℚ
  speed : ℚ
  opacity : ℚ
  connectionDistance : ℚ
  colors : List String

/-- The concrete configuration of main.js. -/
def config : PConfig :=
  { count := 80
  , size := 2
  , speed := 1/2
  , opacity := 1/2
  , connectionDistance := 150
  , colors := ["#8b5cf6", "#3b82f6", "#ec4899", "#06b6d4"] }

/-- One particle: the instance fields of `class Particle`. -/
structure Particle where
  x : ℚ
  y : ℚ
  vx : ℚ
  vy : ℚ
  size : ℚ
  color : String
  opacity : ℚ
  pulse : ℚ
  pulseDir : ℚ
deriving DecidableEq

/-- One draw of each `Math.random()` call the constructor makes, in
source order. Every draw lies in `[0, 1)`. -/
structure Rands where
  rx : ℚ
  ry : ℚ
  rvx : ℚ
  rvy : ℚ
  rsize : ℚ
  rcolor : ℚ
  ropacity : ℚ
  rpulse : ℚ
deriving DecidableEq

/-- JavaScript `v || e` for a possibly-`undefined` numeric argument:
`undefined` and `0` are both falsy, any other number is truthy. -/
def jsOrNum (v : Option ℚ) (e : ℚ) : ℚ :=
  match v with
  | none => e
  | some q => if q = 0 then e else q

/-- `new Particle(x, y)`, with the `Math.random()` draws passed
explicitly; `initCanvas` calls it with both coordinates `undefined`. -/
def particleNew (cw ch : ℚ) (r : Rands) (ox oy : Option ℚ) : Particle :=
  { x := jsOrNum ox (r.rx * cw)
  , y := jsOrNum oy (r.ry * ch)
  , vx := (r.rvx - 1/2) * config.speed
  , vy := (r.rvy - 1/2) * config.speed
  , size := r.rsize * config.size + 1
  , color := config.colors.getD (Int.floor (r.rcolor * (config.colors.length : ℚ))).toNat ""
  , opacity := r.ropacity * config.opacity + 1/10
  , pulse := r.rpulse * (2/100)
  , pulseDir := 1 }

/-- One frame of `Particle.update()`: integrate position by velocity,
advance the opacity pulse (direction negated once the new opacity is at
or beyond either bound), then negate a velocity component when the new
position lies outside `[0, cw] × [0, ch]`. The position itself is not
clamped. -/
def Particle.update (cw ch : ℚ) (p : Particle) : Particle :=
  let x := p.x + p.vx
  let y := p.y + p.vy
  let opacity := p.opacity + p.pulse * p.pulseDir
  let pulseDir :=
    if config.opacity ≤ opacity ∨ opacity ≤ 1/10 then -p.pulseDir else p.pulseDir
  let vx := if x < 0 ∨ cw < x then -p.vx else p.vx
  let vy := if y < 0 ∨ ch < y then -p.vy else p.vy
  { p with x := x, y := y, vx := vx, vy := vy, opacity := opacity, pulseDir := pulseDir }

/-- `n` consecutive frame updates. -/
def updateN (cw ch : ℚ) : ℕ → Particle → Particle
  | 0, p => p
  | n + 1, p => updateN cw ch n (p.update cw ch)

/-- `addParticle(x, y)`: push `new Particle(x, y)`, then `shift()` (drop
the oldest element) once the length exceeds `config.count * 2`. -/
def addParticle (cw ch : ℚ) (r : Rands) (ox oy : Option ℚ)
    (ps : List Particle) : List Particle :=
  let ps' := ps ++ [particleNew cw ch r ox oy]
  if config.count * 2 < ps'.length then ps'.drop 1 else ps'

/-- The particle set built by `initCanvas()`: `config.count` particles
created by `new Particle()` with no coordinate arguments. -/
def initParticles (cw ch : ℚ) (rands : ℕ → Rands) : List Particle :=
  (List.range config.count).map (fun i => particleNew cw ch (rands i) none none)

/-- The per-pair distance computed inside `drawConnections`:
`Math.sqrt(dx * dx + dy * dy)`. -/
noncomputable def pdist (p q : Particle) : ℝ :=
  Real.sqrt (((p.x - q.x) * (p.x - q.x) + (p.y - q.y) * (p.y - q.y) : ℚ) : ℝ)

/-- A connecting line as drawn on the canvas: its two endpoints and its
stroke opacity. -/
structure Line where
  a : ℚ × ℚ
  b : ℚ × ℚ
  opacity : ℝ

/-- The line `drawConnections` strokes for a close pair: from particle
`p` to particle `q`, with opacity `(1 - distance / connectionDistance) * 0.2`. -/
noncomputable def lineFor (p q : Particle) : Line :=
  ⟨(p.x, p.y), (q.x, q.y),
    (1 - pdist p q / (config.connectionDistance : ℝ)) * (2/10)⟩

open Classical in
/-- The inner loop of `drawConnections` for a fixed `i`: one line to each
later particle strictly closer than `config.connectionDistance`. -/
noncomputable def linesFrom (p : Particle) (rest : List Particle) : List Line :=
  rest.filterMap (fun q =>
    if pdist p q < (config.connectionDistance : ℝ) then some (lineFor p q) else none)

/-- `drawConnections()`: the lines drawn in one frame, over all ordered
index pairs `i < j` of the particle array. -/
noncomputable def drawConnections : List Particle → List Line
  | [] => []
  | p :: rest => linesFrom p rest ++ drawConnections rest

/-- Per-axis reflection invariant for `Particle.update`: the coordinate
stays within the bound expanded by one velocity step, and whenever it is
outside the surface the velocity already points back inside. -/
def axisInv (w x v : ℚ) : Prop :=
  -|v| ≤ x ∧ x ≤ w + |v| ∧ (x < 0 → 0 < v) ∧ (w < x → v < 0)

/-- Opacity oscillation invariant for `Particle.update`: the opacity is
inside the band `[0.1, config.opacity]`, or has overshot a bound by at
most one pulse step with the direction already flipped back. -/
def opInv (p : Particle) : Prop :=
  (1/10 ≤ p.opacity ∧ p.opacity ≤ config.opacity) ∨
  (config.opacity < p.opacity ∧ p.opacity ≤ config.opacity + p.pulse ∧ p.pulseDir = -1) ∨
  (1/10 - p.pulse ≤ p.opacity ∧ p.opacity < 1/10 ∧ p.pulseDir = 1)

/-! ## Helper lemmas: the i18n cache -/

theorem loadLanguage_cached (fetch : Fetch) (lang : String) (s : I18nState)
    (b : Bundle) (h : s.translations.lookup lang = some b) :
    loadLanguage fetch lang s = ⟨b, s, []⟩ := by
  simp [loadLanguage, h]

theorem loadLanguage_state_currentLang (fetch : Fetch) (lang : String) (s : I18nState) :
    (loadLanguage fetch lang s).state.currentLang = s.currentLang := by
  unfold loadLanguage
  cases h : s.translations.lookup lang with
  | some b => rfl
  | none =>
      cases hf : fetchAll fetch lang with
      | some b => rfl
      | none => rfl

theorem loadLanguage_preserves (fetch : Fetch) (lang l : String) (b : Bundle)
    (s : I18nState) (h : s.translations.lookup l = some b) :
    (loadLanguage fetch lang s).state.translations.lookup l = some b := by
  cases hc : s.translations.lookup lang with
  | some b2 => rw [loadLanguage_cached fetch lang s b2 hc]; exact h
  | none =>
      cases hf : fetchAll fetch lang with
      | some nb =>
          have hne : ¬(l = lang) := by
            intro he
            rw [he, hc] at h
            exact Option.noConfusion h
          have hb : (l == lang) = false := beq_eq_false_iff_ne.mpr hne
          simp [loadLanguage, hc, hf, List.lookup, hb, h]
      | none => simp [loadLanguage, hc, hf, h]

theorem setLanguage_preserves (fetch : Fetch) (lang l : String) (b : Bundle)
    (s : I18nState) (h : s.translations.lookup l = some b) :
    (setLanguage fetch lang s).state.translations.lookup l = some b := by
  unfold setLanguage
  by_cases he : lang = s.currentLang
  · simpa [he] using h
  · simp only [he, if_false]
    exact loadLanguage_preserves fetch lang l b _ h

theorem runOp_preserves (fetch : Fetch) (l : String) (b : Bundle)
    (s : I18nState) (op : Op) (h : s.translations.lookup l = some b) :
    (runOp fetch s op).translations.lookup l = some b := by
  cases op with
  | load lang => exact loadLanguage_preserves fetch lang l b s h
  | set lang => exact setLanguage_preserves fetch lang l b s h

theorem foldl_runOp_preserves (fetch : Fetch) (l : String) (b : Bundle) :
    ∀ (ops : List Op) (s : I18nState), s.translations.lookup l = some b →
      ((ops.foldl (runOp fetch) s).translations.lookup l = some b)
  | [], _, h => h
  | op :: ops, s, h =>
      foldl_runOp_preserves fetch l b ops (runOp fetch s op)
        (runOp_preserves fetch l b s op h)

/-! ## Claim C8 -/

/-- C8 (confirmed): `setLanguage` called with the code already current
performs no fetch, no DOM update and no event dispatch, and leaves the
whole module state (current language, translation cache, persisted
preference) unchanged. -/
theorem c8_setLanguage_same_code_noop (fetch : Fetch) (lang : String)
    (s : I18nState) (h : lang = s.currentLang) :
    setLanguage fetch lang s = ⟨s, [], none, false, false⟩ := by
  simp [setLanguage, h]

/-- Witness for C8 at a concrete state. -/
theorem c8_witness :
    setLanguage (fun _ _ => none) "zh" ⟨"zh", [], none⟩ =
      ⟨⟨"zh", [], none⟩, [], none, false, false⟩ :=
  c8_setLanguage_same_code_noop (fun _ _ => none) "zh" ⟨"zh", [], none⟩ rfl

/-! ## Claim C9 -/

/-- C9 counterexample: the stored preference is read through JavaScript
`||`, so a stored empty string is ignored in favour of the browser
default, although a code is stored. -/
theorem c9_counterexample :
    (some "" : Option String) ≠ none ∧
    initLang (some "") "fr" = "en" ∧ ("en" : String) ≠ "" := by
  refine ⟨by simp, by decide, by decide⟩

/-- C9 (amended): `init` sets the current language to the persisted code
when a nonempty one is stored; when none is stored, or the stored value
is the empty string, it is "zh" exactly when the browser language starts
with "zh" and "en" otherwise. -/
theorem c9_init_language_amended (fetch : Fetch) (saved : Option String)
    (navLang : String) :
    (init fetch saved navLang).currentLang = initLang saved navLang ∧
    (∀ c, saved = some c → c ≠ "" → initLang saved navLang = c) ∧
    ((saved = none ∨ saved = some "") →
      (jsStartsWith navLang "zh" = true → initLang saved navLang = "zh") ∧
      (jsStartsWith navLang "zh" = false → initLang saved navLang = "en")) := by
  refine ⟨?_, ?_, ?_⟩
  · unfold init
    exact loadLanguage_state_currentLang fetch (initLang saved navLang) _
  · intro c hc hne
    subst hc
    simp [initLang, jsOrString, hne]
  · intro hsaved
    constructor
    · intro hzh
      rcases hsaved with h | h <;> subst h <;> simp [initLang, jsOrString, hzh]
    · intro hzh
      rcases hsaved with h | h <;> subst h <;> simp [initLang, jsOrString, hzh]

/-- Witness for C9 at concrete inputs. -/
theorem c9_witness :
    ("zh" : String) ≠ "" ∧ initLang (some "zh") "en-US" = "zh" :=
  ⟨by decide,
    (c9_init_language_amended (fun _ _ => none) (some "zh") "en-US").2.1 "zh" rfl
      (by decide)⟩

/-! ## Claim C2 -/

/-- A path can only resolve inside a JSON value that is an object, and
objects are truthy. -/
theorem truthy_of_getNestedValue_some (c : Json) (keys : List String)
    (v : Json) (h : getNestedValue (some c) keys = some v) : c.truthy = true := by
  cases c with
  | str a => simp [getNestedValue] at h
  | obj fields => rfl

/-- C2 (confirmed): for the current language bundle, `t` returns the
value at the dotted path inside the page section when the whole path
resolves there; otherwise the value at the same path inside the `common`
section when it resolves there; otherwise the key itself. A path stops
resolving as soon as a segment is missing or the intermediate value is
not an object. -/
theorem c2_t_resolution (translations : List (String × Bundle))
    (lang key page : String) (data : Bundle)
    (hdata : translations.lookup lang = some data) :
    (∀ v, getNestedValue (data.lookup page) (jsSplitDot key) = some v →
      t translations lang key page = v) ∧
    (getNestedValue (data.lookup page) (jsSplitDot key) = none →
      ∀ c v, data.lookup "common" = some c →
        getNestedValue (some c) (jsSplitDot key) = some v →
        t translations lang key page = v) ∧
    (getNestedValue (data.lookup page) (jsSplitDot key) = none →
      (∀ c, data.lookup "common" = some c →
        getNestedValue (some c) (jsSplitDot key) = none) →
      t translations lang key page = Json.str key) := by
  refine ⟨?_, ?_, ?_⟩
  · intro v hv
    simp [t, hdata, hv]
  · intro hnone c v hc hv
    have ht := truthy_of_getNestedValue_some c _ v hv
    simp [t, hdata, hnone, hc, ht, hv]
  · intro hnone hcom
    cases hc : data.lookup "common" with
    | none => simp [t, hdata, hnone, hc]
    | some c =>
        have hcv := hcom c hc
        cases htr : c.truthy <;> simp [t, hdata, hnone, hc, htr, hcv]

/-- Witness for C2: the example from the specification,
`resolve("hero.title", "home")` with `home = (hero (title Welcome))`. -/
theorem c2_witness :
    ([("en", [("home", Json.obj [("hero", Json.obj [("title", Json.str "Welcome")])])])] :
        List (String × Bundle)).lookup "en" =
      some [("home", Json.obj [("hero", Json.obj [("title", Json.str "Welcome")])])] ∧
    t [("en", [("home", Json.obj [("hero", Json.obj [("title", Json.str "Welcome")])])])]
      "en" "hero.title" "home" = Json.str "Welcome" :=
  ⟨rfl,
    (c2_t_resolution
        [("en", [("home", Json.obj [("hero", Json.obj [("title", Json.str "Welcome")])])])]
        "en" "hero.title" "home"
        [("home", Json.obj [("hero", Json.obj [("title", Json.str "Welcome")])])]
        rfl).1 (Json.str "Welcome") rfl⟩

/-! ## Claim C1 -/

/-- C1 counterexample: with "zh" active and cached, a `setLanguage("en")`
whose fetches fail resolves its inner load with the empty bundle, not
with the cached "zh" bundle, because `currentLang` was already switched
to "en" before the load started. -/
theorem c1_counterexample :
    (⟨"zh", [("zh", [("common", Json.obj [])])], some "zh"⟩ :
        I18nState).translations.lookup "zh" = some [("common", Json.obj [])] ∧
    (setLanguage (fun l _ => if l = "zh" then some (Json.obj []) else none) "en"
        ⟨"zh", [("zh", [("common", Json.obj [])])], some "zh"⟩).loaded = some [] ∧
    ([] : Bundle) ≠ [("common", Json.obj [])] := by
  refine ⟨rfl, rfl, by simp⟩

/-- C1 (amended): on fetch failure `loadLanguage` never rejects and
resolves with the cached bundle of the language that is current at
failure time, or the empty bundle if that language has none; since
`setLanguage` switches `currentLang` to the new code before loading, a
failing load triggered by `setLanguage` always resolves with the empty
bundle, even when the previously active language has a cached bundle. -/
theorem c1_failure_fallback_amended (fetch : Fetch) (lang : String)
    (s : I18nState) (hnone : s.translations.lookup lang = none)
    (hfail : fetchAll fetch lang = none) :
    loadLanguage fetch lang s =
      ⟨(s.translations.lookup s.currentLang).getD [], s,
        sectionNames.map (fun n => (lang, n))⟩ ∧
    (lang ≠ s.currentLang →
      (setLanguage fetch lang s).loaded = some [] ∧
      (setLanguage fetch lang s).state =
        { s with currentLang := lang, persisted := some lang }) := by
  have h1 : loadLanguage fetch lang s =
      ⟨(s.translations.lookup s.currentLang).getD [], s,
        sectionNames.map (fun n => (lang, n))⟩ := by
    simp [loadLanguage, hnone, hfail]
  refine ⟨h1, fun hne => ?_⟩
  have hne2 : ¬(lang = s.currentLang) := hne
  have h2 : loadLanguage fetch lang
      { s with currentLang := lang, persisted := some lang } =
      ⟨([] : Bundle), { s with currentLang := lang, persisted := some lang },
        sectionNames.map (fun n => (lang, n))⟩ := by
    simp [loadLanguage, hnone, hfail]
  constructor
  · simp [setLanguage, hne2, h2]
  · simp [setLanguage, hne2, h2]

/-- Witness for C1 at a concrete failing fetch. -/
theorem c1_witness :
    (⟨"zh", [("zh", [("common", Json.obj [])])], none⟩ :
        I18nState).translations.lookup "en" = none ∧
    fetchAll (fun _ _ => none) "en" = none ∧
    (setLanguage (fun _ _ => none) "en"
      ⟨"zh", [("zh", [("common", Json.obj [])])], none⟩).loaded = some [] :=
  ⟨rfl, rfl,
    ((c1_failure_fallback_amended (fun _ _ => none) "en"
        ⟨"zh", [("zh", [("common", Json.obj [])])], none⟩ rfl rfl).2
      (by decide)).1⟩

/-! ## Claim C6 -/

/-- C6 counterexample: a load whose fetches fail is not cached, so a
second `loadLanguage` for the same code fires the fetches again — the
resources are not fetched exactly once for that code. -/
theorem c6_counterexample :
    (loadLanguage (fun _ _ => none) "fr" ⟨"zh", [], none⟩).requests ≠ [] ∧
    (loadLanguage (fun _ _ => none) "fr"
      (loadLanguage (fun _ _ => none) "fr" ⟨"zh", [], none⟩).state).requests ≠ [] := by
  refine ⟨by decide, by decide⟩

/-- C6 (amended): for a language whose seven fetches succeed, the first
load fires exactly the seven requests and caches the merged bundle, and
after any further sequence of `loadLanguage` and `setLanguage` calls a
later `loadLanguage` of that code performs no fetch and resolves with
the cached bundle; a later `setLanguage` back to that code likewise
performs no fetch. -/
theorem c6_fetch_once_amended (fetch : Fetch) (lang : String) (s : I18nState)
    (b : Bundle) (ops : List Op)
    (hnone : s.translations.lookup lang = none)
    (hsuc : fetchAll fetch lang = some b) :
    (loadLanguage fetch lang s).bundle = b ∧
    (loadLanguage fetch lang s).requests = sectionNames.map (fun n => (lang, n)) ∧
    (loadLanguage fetch lang s).state.translations.lookup lang = some b ∧
    loadLanguage fetch lang
        (ops.foldl (runOp fetch) (loadLanguage fetch lang s).state) =
      ⟨b, ops.foldl (runOp fetch) (loadLanguage fetch lang s).state, []⟩ ∧
    (setLanguage fetch lang
        (ops.foldl (runOp fetch) (loadLanguage fetch lang s).state)).requests = [] := by
  have h1 : loadLanguage fetch lang s =
      ⟨b, { s with translations := (lang, b) :: s.translations },
        sectionNames.map (fun n => (lang, n))⟩ := by
    simp [loadLanguage, hnone, hsuc]
  have hcache : (loadLanguage fetch lang s).state.translations.lookup lang = some b := by
    rw [h1]
    simp [List.lookup]
  have hlater := foldl_runOp_preserves fetch lang b ops _ hcache
  refine ⟨by rw [h1], by rw [h1], hcache, loadLanguage_cached fetch lang _ b hlater, ?_⟩
  unfold setLanguage
  by_cases he : lang = (ops.foldl (runOp fetch) (loadLanguage fetch lang s).state).currentLang
  · rw [if_pos he]
  · rw [if_neg he]
    exact congrArg LoadResult.requests
      (loadLanguage_cached fetch lang
        { currentLang := lang,
          translations :=
            (List.foldl (runOp fetch) (loadLanguage fetch lang s).state ops).translations,
          persisted := some lang } b hlater)

/-- Witness for C6: the specification scenario, load "en", switch to
"zh" and back to "en"; the final "en" switch performs no fetch. -/
theorem c6_witness :
    (⟨"zh", [], none⟩ : I18nState).translations.lookup "en" = none ∧
    fetchAll (fun _ _ => some (Json.obj [])) "en" =
      some (sectionNames.map (fun n => (n, Json.obj []))) ∧
    (setLanguage (fun _ _ => some (Json.obj [])) "en"
      ([Op.set "zh", Op.set "en"].foldl (runOp (fun _ _ => some (Json.obj [])))
        (loadLanguage (fun _ _ => some (Json.obj []))
          "en" ⟨"zh", [], none⟩).state)).requests = [] :=
  ⟨rfl, rfl,
    (c6_fetch_once_amended (fun _ _ => some (Json.obj [])) "en" ⟨"zh", [], none⟩
        (sectionNames.map (fun n => (n, Json.obj []))) [Op.set "zh", Op.set "en"]
        rfl rfl).2.2.2.2⟩

/-! ## Helper lemmas: particle update -/

theorem update_x (cw ch : ℚ) (p : Particle) :
    (p.update cw ch).x = p.x + p.vx := rfl

theorem update_y (cw ch : ℚ) (p : Particle) :
    (p.update cw ch).y = p.y + p.vy := rfl

theorem update_vx (cw ch : ℚ) (p : Particle) :
    (p.update cw ch).vx =
      if p.x + p.vx < 0 ∨ cw < p.x + p.vx then -p.vx else p.vx := rfl

theorem update_vy (cw ch : ℚ) (p : Particle) :
    (p.update cw ch).vy =
      if p.y + p.vy < 0 ∨ ch < p.y + p.vy then -p.vy else p.vy := rfl

theorem update_opacity (cw ch : ℚ) (p : Particle) :
    (p.update cw ch).opacity = p.opacity + p.pulse * p.pulseDir := rfl

theorem update_pulse (cw ch : ℚ) (p : Particle) :
    (p.update cw ch).pulse = p.pulse := rfl

theorem update_pulseDir (cw ch : ℚ) (p : Particle) :
    (p.update cw ch).pulseDir =
      if config.opacity ≤ p.opacity + p.pulse * p.pulseDir ∨
          p.opacity + p.pulse * p.pulseDir ≤ 1/10
        then -p.pulseDir else p.pulseDir := rfl

theorem axisInv_init (w x v : ℚ) (h0 : 0 ≤ x) (h1 : x ≤ w) : axisInv w x v := by
  have hv0 : 0 ≤ |v| := abs_nonneg v
  exact ⟨by linarith, by linarith, fun h => absurd h (by linarith),
    fun h => absurd h (by linarith)⟩

theorem axisInv_step (w x v : ℚ) (hw : |v| ≤ w) (h : axisInv w x v) :
    axisInv w (x + v) (if x + v < 0 ∨ w < x + v then -v else v) := by
  obtain ⟨h1, h2, h3, h4⟩ := h
  have hv1 : -|v| ≤ v := neg_abs_le v
  have hv2 : v ≤ |v| := le_abs_self v
  have hv0 : 0 ≤ |v| := abs_nonneg v
  by_cases hc : x + v < 0 ∨ w < x + v
  · rw [if_pos hc]
    rcases hc with hlt | hgt
    · have hx0 : 0 ≤ x := by
        by_contra hx
        push_neg at hx
        have hvp : 0 < v := h3 hx
        have habs : |v| = v := abs_of_pos hvp
        linarith
      have hvneg : v < 0 := by linarith
      refine ⟨?_, ?_, ?_, ?_⟩
      · rw [abs_neg]; linarith
      · rw [abs_neg]; linarith
      · intro _; linarith
      · intro hw2; linarith
    · have hxw : x ≤ w := by
        by_contra hx
        push_neg at hx
        have hvn : v < 0 := h4 hx
        have habs : |v| = -v := abs_of_neg hvn
        linarith
      have hvpos : 0 < v := by linarith
      refine ⟨?_, ?_, ?_, ?_⟩
      · rw [abs_neg]; linarith
      · rw [abs_neg]; linarith
      · intro hlt2; linarith
      · intro _; linarith
  · rw [if_neg hc]
    push_neg at hc
    obtain ⟨hc1, hc2⟩ := hc
    exact ⟨by linarith, by linarith, fun h5 => absurd h5 (by linarith),
      fun h5 => absurd h5 (by linarith)⟩

theorem update_vx_abs (cw ch : ℚ) (p : Particle) :
    |(p.update cw ch).vx| = |p.vx| := by
  rw [update_vx]
  split
  · rw [abs_neg]
  · rfl

theorem update_vy_abs (cw ch : ℚ) (p : Particle) :
    |(p.update cw ch).vy| = |p.vy| := by
  rw [update_vy]
  split
  · rw [abs_neg]
  · rfl

theorem update_axisInv (cw ch : ℚ) (p : Particle)
    (hx : |p.vx| ≤ cw) (hy : |p.vy| ≤ ch)
    (h1 : axisInv cw p.x p.vx) (h2 : axisInv ch p.y p.vy) :
    axisInv cw (p.update cw ch).x (p.update cw ch).vx ∧
    axisInv ch (p.update cw ch).y (p.update cw ch).vy := by
  rw [update_x, update_vx, update_y, update_vy]
  exact ⟨axisInv_step cw p.x p.vx hx h1, axisInv_step ch p.y p.vy hy h2⟩

theorem updateN_axisInv (cw ch : ℚ) : ∀ (n : ℕ) (p : Particle),
    |p.vx| ≤ cw → |p.vy| ≤ ch → axisInv cw p.x p.vx → axisInv ch p.y p.vy →
    axisInv cw (updateN cw ch n p).x (updateN cw ch n p).vx ∧
    axisInv ch (updateN cw ch n p).y (updateN cw ch n p).vy
  | 0, _, _, _, h1, h2 => ⟨h1, h2⟩
  | n + 1, p, hx, hy, h1, h2 => by
      have hstep := update_axisInv cw ch p hx hy h1 h2
      have hx2 : |(p.update cw ch).vx| ≤ cw := by rw [update_vx_abs]; exact hx
      have hy2 : |(p.update cw ch).vy| ≤ ch := by rw [update_vy_abs]; exact hy
      exact updateN_axisInv cw ch n (p.update cw ch) hx2 hy2 hstep.1 hstep.2

theorem updateN_vx_abs (cw ch : ℚ) : ∀ (n : ℕ) (p : Particle),
    |(updateN cw ch n p).vx| = |p.vx|
  | 0, _ => rfl
  | n + 1, p => by
      rw [show updateN cw ch (n + 1) p = updateN cw ch n (p.update cw ch) from rfl,
        updateN_vx_abs cw ch n (p.update cw ch), update_vx_abs]

theorem updateN_vy_abs (cw ch : ℚ) : ∀ (n : ℕ) (p : Particle),
    |(updateN cw ch n p).vy| = |p.vy|
  | 0, _ => rfl
  | n + 1, p => by
      rw [show updateN cw ch (n + 1) p = updateN cw ch n (p.update cw ch) from rfl,
        updateN_vy_abs cw ch n (p.update cw ch), update_vy_abs]

/-! ## Claim C3 -/

/-- C3 counterexample: a particle starting at the right edge with a
positive horizontal velocity leaves `[0, width]` on the very next
update, since the update only negates the velocity and never clamps the
position. -/
theorem c3_counterexample :
    (0 ≤ (⟨10, 5, 1, 0, 1, "", 1/5, 0, 1⟩ : Particle).x ∧
      (⟨10, 5, 1, 0, 1, "", 1/5, 0, 1⟩ : Particle).x ≤ 10 ∧
      0 ≤ (⟨10, 5, 1, 0, 1, "", 1/5, 0, 1⟩ : Particle).y ∧
      (⟨10, 5, 1, 0, 1, "", 1/5, 0, 1⟩ : Particle).y ≤ 10) ∧
    ¬ ((Particle.update 10 10 ⟨10, 5, 1, 0, 1, "", 1/5, 0, 1⟩).x ≤ 10) := by
  constructor
  · exact ⟨by norm_num, by norm_num, by norm_num, by norm_num⟩
  · rw [update_x]
    norm_num

/-- C3 (amended): a particle starting inside `[0, cw] × [0, ch]` with
per-axis speed at most the surface size stays, after any number of frame
updates, inside the surface expanded by one velocity step on each axis:
`[-vx, cw + vx] × [-vy, ch + vy]` in absolute values. It can leave the
surface itself, by at most one step, before the reflection brings it
back. -/
theorem c3_position_bound_amended (cw ch : ℚ) (p : Particle) (n : ℕ)
    (hvx : |p.vx| ≤ cw) (hvy : |p.vy| ≤ ch)
    (hx0 : 0 ≤ p.x) (hx1 : p.x ≤ cw) (hy0 : 0 ≤ p.y) (hy1 : p.y ≤ ch) :
    -|p.vx| ≤ (updateN cw ch n p).x ∧ (updateN cw ch n p).x ≤ cw + |p.vx| ∧
    -|p.vy| ≤ (updateN cw ch n p).y ∧ (updateN cw ch n p).y ≤ ch + |p.vy| := by
  have h := updateN_axisInv cw ch n p hvx hvy
    (axisInv_init cw p.x p.vx hx0 hx1) (axisInv_init ch p.y p.vy hy0 hy1)
  obtain ⟨⟨a1, a2, _, _⟩, b1, b2, _, _⟩ := h
  rw [updateN_vx_abs] at a1 a2
  rw [updateN_vy_abs] at b1 b2
  exact ⟨a1, a2, b1, b2⟩

/-- Witness for C3 at a concrete particle and frame count. -/
theorem c3_witness :
    (|(1/4 : ℚ)| ≤ 10 ∧ |(-1/4 : ℚ)| ≤ 10 ∧ (0:ℚ) ≤ 5 ∧ (5:ℚ) ≤ 10) ∧
    (-|(1/4 : ℚ)| ≤ (updateN 10 10 3 ⟨5, 5, 1/4, -1/4, 1, "", 1/5, 0, 1⟩).x ∧
      (updateN 10 10 3 ⟨5, 5, 1/4, -1/4, 1, "", 1/5, 0, 1⟩).x ≤ 10 + |(1/4 : ℚ)| ∧
      -|(-1/4 : ℚ)| ≤ (updateN 10 10 3 ⟨5, 5, 1/4, -1/4, 1, "", 1/5, 0, 1⟩).y ∧
      (updateN 10 10 3 ⟨5, 5, 1/4, -1/4, 1, "", 1/5, 0, 1⟩).y ≤ 10 + |(-1/4 : ℚ)|) := by
  have ha : |(1/4 : ℚ)| = 1/4 := abs_of_pos (by norm_num)
  have hb : |(-1/4 : ℚ)| = 1/4 := by
    rw [abs_of_neg (show (-1/4 : ℚ) < 0 by norm_num)]
    norm_num
  refine ⟨⟨by rw [ha]; norm_num, by rw [hb]; norm_num, by norm_num, by norm_num⟩, ?_⟩
  exact c3_position_bound_amended 10 10 ⟨5, 5, 1/4, -1/4, 1, "", 1/5, 0, 1⟩ 3
    (by rw [ha]; norm_num) (by rw [hb]; norm_num)
    (by norm_num) (by norm_num) (by norm_num) (by norm_num)

/-! ## Claim C4 -/

theorem opInv_update (cw ch : ℚ) (p : Particle) (hp0 : 0 ≤ p.pulse)
    (hp1 : p.pulse < 2/5) (hd : p.pulseDir = 1 ∨ p.pulseDir = -1)
    (h : opInv p) : opInv (p.update cw ch) := by
  have hcfg : config.opacity = (1/2 : ℚ) := rfl
  simp only [opInv, update_opacity, update_pulse, update_pulseDir, hcfg] at h ⊢
  rcases hd with hd | hd <;> rw [hd] at h ⊢ <;>
    simp only [mul_one, mul_neg_one] at h ⊢
  · by_cases hc : (1/2 : ℚ) ≤ p.opacity + p.pulse ∨ p.opacity + p.pulse ≤ 1/10
    · rw [if_pos hc]
      rcases h with ⟨h1, h2⟩ | ⟨h1, h2, h3⟩ | ⟨h1, h2, h3⟩
      · rcases hc with hchi | hclo
        · by_cases h12 : p.opacity + p.pulse ≤ 1/2
          · exact Or.inl ⟨by linarith, h12⟩
          · push_neg at h12
            exact Or.inr (Or.inl ⟨h12, by linarith, rfl⟩)
        · exact Or.inl ⟨by linarith, by linarith⟩
      · exact absurd h3 (by norm_num)
      · rcases hc with hchi | hclo
        · exact absurd hchi (by push_neg; linarith)
        · exact Or.inl ⟨by linarith, by linarith⟩
    · rw [if_neg hc]
      push_neg at hc
      obtain ⟨hc1, hc2⟩ := hc
      rcases h with ⟨h1, h2⟩ | ⟨h1, h2, h3⟩ | ⟨h1, h2, h3⟩
      · exact Or.inl ⟨by linarith, by linarith⟩
      · exact absurd h3 (by norm_num)
      · exact Or.inl ⟨by linarith, by linarith⟩
  · by_cases hc : (1/2 : ℚ) ≤ p.opacity + -p.pulse ∨ p.opacity + -p.pulse ≤ 1/10
    · rw [if_pos hc]
      rcases h with ⟨h1, h2⟩ | ⟨h1, h2, h3⟩ | ⟨h1, h2, h3⟩
      · rcases hc with hchi | hclo
        · exact Or.inl ⟨by linarith, by linarith⟩
        · by_cases h10 : 1/10 ≤ p.opacity + -p.pulse
          · exact Or.inl ⟨h10, by linarith⟩
          · push_neg at h10
            exact Or.inr (Or.inr ⟨by linarith, h10, by norm_num⟩)
      · rcases hc with hchi | hclo
        · exact Or.inl ⟨by linarith, by linarith⟩
        · exact absurd hclo (by push_neg; linarith)
      · exact absurd h3 (by norm_num)
    · rw [if_neg hc]
      push_neg at hc
      obtain ⟨hc1, hc2⟩ := hc
      rcases h with ⟨h1, h2⟩ | ⟨h1, h2, h3⟩ | ⟨h1, h2, h3⟩
      · exact Or.inl ⟨by linarith, by linarith⟩
      · exact Or.inl ⟨by linarith, by linarith⟩
      · exact absurd h3 (by norm_num)

theorem update_pulseDir_pm (cw ch : ℚ) (p : Particle)
    (hd : p.pulseDir = 1 ∨ p.pulseDir = -1) :
    (p.update cw ch).pulseDir = 1 ∨ (p.update cw ch).pulseDir = -1 := by
  rw [update_pulseDir]
  rcases hd with hd | hd <;> rw [hd] <;> split
  · exact Or.inr (by norm_num)
  · exact Or.inl rfl
  · exact Or.inl (by norm_num)
  · exact Or.inr rfl

theorem updateN_opInv (cw ch : ℚ) : ∀ (n : ℕ) (p : Particle),
    0 ≤ p.pulse → p.pulse < 2/5 → (p.pulseDir = 1 ∨ p.pulseDir = -1) →
    opInv p →
    opInv (updateN cw ch n p) ∧ (updateN cw ch n p).pulse = p.pulse
  | 0, _, _, _, _, h => ⟨h, rfl⟩
  | n + 1, p, h0, h1, hd, h => by
      have hrec := updateN_opInv cw ch n (p.update cw ch)
        (by rw [update_pulse]; exact h0) (by rw [update_pulse]; exact h1)
        (update_pulseDir_pm cw ch p hd) (opInv_update cw ch p h0 h1 hd h)
      refine ⟨hrec.1, ?_⟩
      show (updateN cw ch n (p.update cw ch)).pulse = p.pulse
      rw [hrec.2, update_pulse]

theorem opInv_bounds (p : Particle) (hp0 : 0 ≤ p.pulse) (h : opInv p) :
    1/10 - p.pulse ≤ p.opacity ∧ p.opacity ≤ config.opacity + p.pulse := by
  have hcfg : config.opacity = (1/2 : ℚ) := rfl
  rw [hcfg]
  simp only [opInv, hcfg] at h
  rcases h with ⟨h1, h2⟩ | ⟨h1, h2, _⟩ | ⟨h1, h2, _⟩ <;>
    exact ⟨by linarith, by linarith⟩

/-- C4 counterexample: the constructor draws the initial opacity from
`[0.1, 0.1 + config.opacity)`, so with a draw of `0.9` the particle is
created with opacity `0.55`, already above the configured ceiling
`config.opacity = 0.5` — the claimed bound fails at creation. -/
theorem c4_counterexample :
    (particleNew 100 100 ⟨1/2, 1/2, 1/2, 1/2, 1/2, 0, 9/10, 1/2⟩ none none).opacity
      = 11/20 ∧
    ¬ ((particleNew 100 100 ⟨1/2, 1/2, 1/2, 1/2, 1/2, 0, 9/10, 1/2⟩
        none none).opacity ≤ config.opacity) := by
  have h : (particleNew 100 100 ⟨1/2, 1/2, 1/2, 1/2, 1/2, 0, 9/10, 1/2⟩
      none none).opacity = 11/20 := by
    show (9/10 : ℚ) * config.opacity + 1/10 = 11/20
    norm_num [config]
  refine ⟨h, ?_⟩
  rw [h]
  show ¬ ((11/20 : ℚ) ≤ config.opacity)
  norm_num [config]

/-- C4 (amended): for a particle whose opacity starts inside
`[0.1, config.opacity]`, every sequence of frame updates keeps the
opacity within `[0.1 - pulse, config.opacity + pulse]`: each bound can
be overshot by at most one pulse step, after which the oscillation
direction is already flipped. The constructor itself may create the
opacity above `config.opacity` (up to `0.1 + config.opacity`), and the
direction flips whenever an update lands on or beyond a bound, not
exactly at it. -/
theorem c4_opacity_bound_amended (cw ch : ℚ) (p : Particle) (n : ℕ)
    (hp0 : 0 ≤ p.pulse) (hp1 : p.pulse < 2/5)
    (hd : p.pulseDir = 1 ∨ p.pulseDir = -1)
    (h0 : 1/10 ≤ p.opacity) (h1 : p.opacity ≤ config.opacity) :
    1/10 - p.pulse ≤ (updateN cw ch n p).opacity ∧
    (updateN cw ch n p).opacity ≤ config.opacity + p.pulse := by
  have h := updateN_opInv cw ch n p hp0 hp1 hd (Or.inl ⟨h0, h1⟩)
  have hb := opInv_bounds (updateN cw ch n p) (by rw [h.2]; exact hp0) h.1
  rw [h.2] at hb
  exact hb

/-- Witness for C4 at a concrete particle and frame count. -/
theorem c4_witness :
    ((0:ℚ) ≤ 1/100 ∧ (1/100 : ℚ) < 2/5 ∧ ((1:ℚ) = 1 ∨ (1:ℚ) = -1) ∧
      (1/10 : ℚ) ≤ 1/5 ∧ (1/5 : ℚ) ≤ config.opacity) ∧
    (1/10 - (1/100 : ℚ) ≤ (updateN 10 10 2 ⟨0, 0, 0, 0, 1, "", 1/5, 1/100, 1⟩).opacity ∧
      (updateN 10 10 2 ⟨0, 0, 0, 0, 1, "", 1/5, 1/100, 1⟩).opacity
        ≤ config.opacity + 1/100) := by
  refine ⟨⟨by norm_num, by norm_num, Or.inl rfl, by norm_num, by norm_num [config]⟩, ?_⟩
  exact c4_opacity_bound_amended 10 10 ⟨0, 0, 0, 0, 1, "", 1/5, 1/100, 1⟩ 2
    (by norm_num) (by norm_num) (Or.inl rfl) (by norm_num) (by norm_num [config])

/-! ## Claim C5 -/

theorem addParticle_length_le (cw ch : ℚ) (r : Rands) (ox oy : Option ℚ)
    (ps : List Particle) (h : ps.length ≤ config.count * 2) :
    (addParticle cw ch r ox oy ps).length ≤ config.count * 2 := by
  have hlen : (ps ++ [particleNew cw ch r ox oy]).length = ps.length + 1 := by
    rw [List.length_append, List.length_singleton]
  by_cases hc : config.count * 2 < (ps ++ [particleNew cw ch r ox oy]).length
  · have he : addParticle cw ch r ox oy ps =
        List.drop 1 (ps ++ [particleNew cw ch r ox oy]) := by
      simp only [addParticle]
      rw [if_pos hc]
    rw [he, List.length_drop, hlen]
    omega
  · have he : addParticle cw ch r ox oy ps = ps ++ [particleNew cw ch r ox oy] := by
      simp only [addParticle]
      rw [if_neg hc]
    rw [hlen] at hc
    rw [he, hlen]
    omega

theorem foldl_addParticle_le (cw ch : ℚ) :
    ∀ (adds : List (Rands × Option ℚ × Option ℚ)) (l : List Particle),
      l.length ≤ config.count * 2 →
      (adds.foldl (fun l a => addParticle cw ch a.1 a.2.1 a.2.2 l) l).length
        ≤ config.count * 2
  | [], _, h => h
  | a :: adds, l, h =>
      foldl_addParticle_le cw ch adds (addParticle cw ch a.1 a.2.1 a.2.2 l)
        (addParticle_length_le cw ch a.1 a.2.1 a.2.2 l h)

/-- The particle set `initCanvas` creates has the baseline size. -/
theorem initParticles_length (cw ch : ℚ) (rands : ℕ → Rands) :
    (initParticles cw ch rands).length = config.count := by
  simp [initParticles]

/-- C5 (confirmed): starting from the baseline-sized particle set, any
sequence of `addParticle` calls keeps the live count at or below
`2 * config.count`; and whenever an append makes the count exceed the
cap, exactly the oldest particle (the list head) is evicted, keeping the
order of the others — FIFO eviction. -/
theorem c5_particle_cap (cw ch : ℚ) (start : List Particle)
    (hstart : start.length = config.count)
    (adds : List (Rands × Option ℚ × Option ℚ)) :
    (adds.foldl (fun l a => addParticle cw ch a.1 a.2.1 a.2.2 l) start).length
      ≤ config.count * 2 ∧
    (∀ (l : List Particle) (r : Rands) (ox oy : Option ℚ),
      l.length = config.count * 2 →
      addParticle cw ch r ox oy l = l.drop 1 ++ [particleNew cw ch r ox oy]) := by
  constructor
  · exact foldl_addParticle_le cw ch adds start (by rw [hstart]; norm_num [config])
  · intro l r ox oy hlen
    unfold addParticle
    have hc : config.count * 2 < (l ++ [particleNew cw ch r ox oy]).length := by
      simp [hlen]
    rw [if_pos hc]
    exact List.drop_append_of_le_length (by rw [hlen]; norm_num [config])

/-- Witness for C5: the initial particle set with one interactive add. -/
theorem c5_witness :
    (initParticles 10 10 (fun _ => ⟨0, 0, 0, 0, 0, 0, 0, 0⟩)).length = config.count ∧
    ([(⟨0, 0, 0, 0, 0, 0, 0, 0⟩, some 1, some 1)].foldl
      (fun l a => addParticle 10 10 a.1 a.2.1 a.2.2 l)
      (initParticles 10 10 (fun _ => ⟨0, 0, 0, 0, 0, 0, 0, 0⟩))).length
      ≤ config.count * 2 :=
  ⟨initParticles_length 10 10 (fun _ => ⟨0, 0, 0, 0, 0, 0, 0, 0⟩),
    (c5_particle_cap 10 10 (initParticles 10 10 (fun _ => ⟨0, 0, 0, 0, 0, 0, 0, 0⟩))
      (initParticles_length 10 10 (fun _ => ⟨0, 0, 0, 0, 0, 0, 0, 0⟩))
      [(⟨0, 0, 0, 0, 0, 0, 0, 0⟩, some 1, some 1)]).1⟩

/-! ## Claim C10 -/

/-- C10 (confirmed): a coordinate passed to `addParticle` flows into the
constructor through JavaScript `||`, so the value `0` — being falsy — is
replaced by a fresh random position inside the canvas dimension, while
any nonzero coordinate is honored as given; the new particle is appended
at the tail of the array. -/
theorem c10_zero_coordinate_randomized (cw ch : ℚ) (r : Rands)
    (ox oy : Option ℚ) :
    (particleNew cw ch r (some 0) oy).x = r.rx * cw ∧
    (particleNew cw ch r ox (some 0)).y = r.ry * ch ∧
    (0 ≤ r.rx → r.rx < 1 → 0 < cw →
      0 ≤ (particleNew cw ch r (some 0) oy).x ∧
      (particleNew cw ch r (some 0) oy).x < cw) ∧
    (0 ≤ r.ry → r.ry < 1 → 0 < ch →
      0 ≤ (particleNew cw ch r ox (some 0)).y ∧
      (particleNew cw ch r ox (some 0)).y < ch) ∧
    (∀ v : ℚ, v ≠ 0 → (particleNew cw ch r (some v) oy).x = v) ∧
    (∀ v : ℚ, v ≠ 0 → (particleNew cw ch r ox (some v)).y = v) ∧
    (∀ ps : List Particle,
      (addParticle cw ch r (some 0) oy ps).getLast? =
        some (particleNew cw ch r (some 0) oy)) := by
  have hx : (particleNew cw ch r (some 0) oy).x = r.rx * cw := by
    simp [particleNew, jsOrNum]
  have hy : (particleNew cw ch r ox (some 0)).y = r.ry * ch := by
    simp [particleNew, jsOrNum]
  refine ⟨hx, hy, ?_, ?_, ?_, ?_, ?_⟩
  · intro h0 h1 hcw
    rw [hx]
    constructor
    · exact mul_nonneg h0 (le_of_lt hcw)
    · nlinarith
  · intro h0 h1 hch
    rw [hy]
    constructor
    · exact mul_nonneg h0 (le_of_lt hch)
    · nlinarith
  · intro v hv
    simp [particleNew, jsOrNum, hv]
  · intro v hv
    simp [particleNew, jsOrNum, hv]
  · intro ps
    simp only [addParticle]
    split
    · rcases ps with _ | ⟨q, qs⟩
      · simp_all [config]
      · rw [List.drop_append_of_le_length (by simp)]
        exact List.getLast?_concat _
    · exact List.getLast?_concat _

/-- Witness for C10 at concrete inputs. -/
theorem c10_witness :
    ((0:ℚ) ≤ 1/3 ∧ (1/3 : ℚ) < 1 ∧ (0:ℚ) < 9) ∧
    (particleNew 9 9 ⟨1/3, 1/2, 0, 0, 0, 0, 0, 0⟩ (some 0) none).x = 1/3 * 9 ∧
    (0 ≤ (particleNew 9 9 ⟨1/3, 1/2, 0, 0, 0, 0, 0, 0⟩ (some 0) none).x ∧
      (particleNew 9 9 ⟨1/3, 1/2, 0, 0, 0, 0, 0, 0⟩ (some 0) none).x < 9) ∧
    (particleNew 9 9 ⟨1/3, 1/2, 0, 0, 0, 0, 0, 0⟩ (some 7) none).x = 7 :=
  ⟨⟨by norm_num, by norm_num, by norm_num⟩,
    (c10_zero_coordinate_randomized 9 9 ⟨1/3, 1/2, 0, 0, 0, 0, 0, 0⟩ (some 7) none).1,
    (c10_zero_coordinate_randomized 9 9 ⟨1/3, 1/2, 0, 0, 0, 0, 0, 0⟩ (some 7) none).2.2.1
      (by norm_num) (by norm_num) (by norm_num),
    (c10_zero_coordinate_randomized 9 9 ⟨1/3, 1/2, 0, 0, 0, 0, 0, 0⟩ (some 7) none).2.2.2.2.1
      7 (by norm_num)⟩

/-! ## Claim C7 -/

theorem mem_linesFrom (p : Particle) (rest : List Particle) (l : Line) :
    l ∈ linesFrom p rest ↔
      ∃ q, q ∈ rest ∧ pdist p q < (config.connectionDistance : ℝ) ∧
        l = lineFor p q := by
  simp only [linesFrom, List.mem_filterMap]
  constructor
  · rintro ⟨q, hq, hif⟩
    by_cases hc : pdist p q < (config.connectionDistance : ℝ)
    · rw [if_pos hc] at hif
      exact ⟨q, hq, hc, (Option.some.inj hif).symm⟩
    · rw [if_neg hc] at hif
      exact absurd hif (by simp)
  · rintro ⟨q, hq, hc, rfl⟩
    exact ⟨q, hq, by rw [if_pos hc]⟩

theorem mem_drawConnections (ps : List Particle) (l : Line) :
    l ∈ drawConnections ps ↔
      ∃ p q, List.Sublist [p, q] ps ∧
        pdist p q < (config.connectionDistance : ℝ) ∧ l = lineFor p q := by
  induction ps with
  | nil =>
      simp [drawConnections]
  | cons a rest ih =>
      simp only [drawConnections, List.mem_append, mem_linesFrom, ih]
      constructor
      · rintro (⟨q, hq, hc, rfl⟩ | ⟨p, q, hsub, hc, rfl⟩)
        · exact ⟨a, q, List.Sublist.cons₂ a (List.singleton_sublist.mpr hq), hc, rfl⟩
        · exact ⟨p, q, hsub.cons a, hc, rfl⟩
      · rintro ⟨p, q, hsub, hc, rfl⟩
        cases hsub with
        | cons _ h => exact Or.inr ⟨p, q, h, hc, rfl⟩
        | cons₂ _ h => exact Or.inl ⟨q, List.singleton_sublist.mp h, hc, rfl⟩

theorem pdist_comm (p q : Particle) : pdist p q = pdist q p := by
  unfold pdist
  congr 1
  push_cast
  ring

theorem pdist_congr (p q p2 q2 : Particle) (hx : p2.x = p.x) (hy : p2.y = p.y)
    (hx2 : q2.x = q.x) (hy2 : q2.y = q.y) : pdist p2 q2 = pdist p q := by
  unfold pdist
  rw [hx, hy, hx2, hy2]

/-- C7 (confirmed): for an ordered pair of particles of the array at
distance at or beyond `config.connectionDistance`, no line with their
two positions as endpoints (in either order) is drawn; for a pair
strictly closer, a line between their positions is drawn with stroke
opacity `(1 - distance / connectionDistance) * 0.2`, proportional to
`1 - distance / connectionDistance`. -/
theorem c7_connection_threshold (ps : List Particle) (p q : Particle)
    (hsub : List.Sublist [p, q] ps) :
    ((config.connectionDistance : ℝ) ≤ pdist p q →
      ∀ l ∈ drawConnections ps,
        ¬ ((l.a = (p.x, p.y) ∧ l.b = (q.x, q.y)) ∨
           (l.a = (q.x, q.y) ∧ l.b = (p.x, p.y)))) ∧
    (pdist p q < (config.connectionDistance : ℝ) →
      lineFor p q ∈ drawConnections ps) := by
  constructor
  · intro hfar l hl hend
    obtain ⟨p2, q2, _, hc2, rfl⟩ := (mem_drawConnections ps l).mp hl
    rcases hend with ⟨ha, hb⟩ | ⟨ha, hb⟩
    · have hpx : p2.x = p.x := congrArg Prod.fst ha
      have hpy : p2.y = p.y := congrArg Prod.snd ha
      have hqx : q2.x = q.x := congrArg Prod.fst hb
      have hqy : q2.y = q.y := congrArg Prod.snd hb
      rw [pdist_congr p q p2 q2 hpx hpy hqx hqy] at hc2
      linarith
    · have hpx : p2.x = q.x := congrArg Prod.fst ha
      have hpy : p2.y = q.y := congrArg Prod.snd ha
      have hqx : q2.x = p.x := congrArg Prod.fst hb
      have hqy : q2.y = p.y := congrArg Prod.snd hb
      rw [pdist_congr q p p2 q2 hpx hpy hqx hqy, pdist_comm q p] at hc2
      linarith
  · intro hnear
    exact (mem_drawConnections ps (lineFor p q)).mpr ⟨p, q, hsub, hnear, rfl⟩

/-- Witness for C7: two particles at distance 5, below the threshold
150, get their connecting line drawn. -/
theorem c7_witness :
    List.Sublist [(⟨0, 0, 0, 0, 1, "", 1/5, 0, 1⟩ : Particle),
        ⟨3, 4, 0, 0, 1, "", 1/5, 0, 1⟩]
      [(⟨0, 0, 0, 0, 1, "", 1/5, 0, 1⟩ : Particle), ⟨3, 4, 0, 0, 1, "", 1/5, 0, 1⟩] ∧
    lineFor (⟨0, 0, 0, 0, 1, "", 1/5, 0, 1⟩ : Particle) ⟨3, 4, 0, 0, 1, "", 1/5, 0, 1⟩
      ∈ drawConnections
        [(⟨0, 0, 0, 0, 1, "", 1/5, 0, 1⟩ : Particle), ⟨3, 4, 0, 0, 1, "", 1/5, 0, 1⟩] := by
  have h5 : pdist (⟨0, 0, 0, 0, 1, "", 1/5, 0, 1⟩ : Particle)
      ⟨3, 4, 0, 0, 1, "", 1/5, 0, 1⟩ = 5 := by
    unfold pdist
    rw [show (((0 : ℚ) - 3) * ((0 : ℚ) - 3) + ((0 : ℚ) - 4) * ((0 : ℚ) - 4) : ℚ)
        = (25 : ℚ) by norm_num]
    rw [show ((25 : ℚ) : ℝ) = (5 : ℝ) ^ 2 by norm_num]
    exact Real.sqrt_sq (by norm_num)
  refine ⟨List.Sublist.refl _, ?_⟩
  refine (c7_connection_threshold _ _ _ (List.Sublist.refl _)).2 ?_
  rw [h5]
  norm_num [config]
